import Mathlib

/-
Verification of the LED staircase firmware (tims-led-staircase).

The development shallowly embeds the address-mapping layer (xyToIndex and
its variants), the stacked-animation scheduler of the final sketch
(pushStack, popStack, sensorLoop, the expiry pass of animationLoop, the
saturating compositor displayLeds, the frame limiter), and the
hold-then-fade brightness curve of the cascading sketch
(calculateStepBrightness).  Machine integers are modelled as Int or Nat;
the sketches never overflow the 32-bit ranges involved, and millis()
subtraction is modelled on the invariant that recorded start times never
exceed the current time.
-/

namespace Stairs

/-! ## Staircase layout constants (main.ino, mvp.ino, example.ino, conway.ino) -/

def NUM_LEDS : Int := 980

def STEP_COUNT : Int := 14

def MAX_LEDS_PER_STEP : Int := 71

def LEDS_PER_STEP : List Int := [64, 64, 71, 71, 71, 71, 71, 71, 71, 71, 71, 71, 71, 71]

def STEP_START : List Int := [0, 64, 128, 199, 270, 341, 412, 483, 554, 625, 696, 767, 838, 909]

/-- Embedding of xyToIndex from main.ino lines 72-88 (mvp.ino and example.ino
contain character-identical copies).  C `step & 1` on the in-range,
non-negative step of the final branch equals `step % 2 = 1`; the C array
reads are in bounds there, modelled with getD. -/
def xyToIndex (step pos : Int) : Int :=
  if step < 0 ∨ STEP_COUNT ≤ step ∨ pos < 0 ∨ MAX_LEDS_PER_STEP ≤ pos then NUM_LEDS
  else if step < 2 ∧ pos < 7 then NUM_LEDS
  else
    let adjustedPos : Int := if step < 2 then pos - 7 else pos
    let start : Int := STEP_START.getD step.toNat 0
    if step % 2 = 1 then start + (LEDS_PER_STEP.getD step.toNat 0 - 1 - adjustedPos)
    else start + adjustedPos

/-- Embedding of xyToIndex from conway.ino lines 31-38: same arithmetic but
with NO range check on step or pos.  For `step` in [0, 14) the C table reads
are in bounds and this embedding is exact; a step outside that range would
read past the C arrays (undefined behaviour), which the getD default does
not model, so theorems only use this definition at in-range steps. -/
def conwayXyToIndex (step pos : Int) : Int :=
  if step < 2 ∧ pos < 7 then NUM_LEDS
  else
    let adjustedPos : Int := if step < 2 then pos - 7 else pos
    let start : Int := STEP_START.getD step.toNat 0
    if step % 2 = 1 then start + (LEDS_PER_STEP.getD step.toNat 0 - 1 - adjustedPos)
    else start + adjustedPos

/-- A logical address that is in range and outside the virtual prefix of the
two short top rows; exactly the addresses with a backing LED. -/
def validAddr (step pos : Int) : Prop :=
  0 ≤ step ∧ step < STEP_COUNT ∧ 0 ≤ pos ∧ pos < MAX_LEDS_PER_STEP ∧ ¬(step < 2 ∧ pos < 7)

instance (step pos : Int) : Decidable (validAddr step pos) := by
  unfold validAddr; infer_instance

/-- Proof-side inverse of xyToIndex: recovers the logical address of a
physical slot.  Used to establish injectivity and surjectivity. -/
def indexToXy (i : Int) : Int × Int :=
  let s : Int :=
    if i < 64 then 0 else if i < 128 then 1 else if i < 199 then 2
    else if i < 270 then 3 else if i < 341 then 4 else if i < 412 then 5
    else if i < 483 then 6 else if i < 554 then 7 else if i < 625 then 8
    else if i < 696 then 9 else if i < 767 then 10 else if i < 838 then 11
    else if i < 909 then 12 else 13
  let start : Int := STEP_START.getD s.toNat 0
  let len : Int := LEDS_PER_STEP.getD s.toNat 0
  let offset : Int := i - start
  let adj : Int := if s % 2 = 1 then len - 1 - offset else offset
  (s, if s < 2 then adj + 7 else adj)

example : xyToIndex 0 7 = 0 := by decide
example : xyToIndex 0 70 = 63 := by decide
example : xyToIndex 1 7 = 127 := by decide
example : xyToIndex 1 70 = 64 := by decide
example : xyToIndex 2 0 = 128 := by decide
example : xyToIndex 13 0 = 979 ∧ xyToIndex 13 70 = 909 := by decide
example : xyToIndex 0 0 = 980 ∧ xyToIndex (-1) 3 = 980 ∧ xyToIndex 14 3 = 980 := by decide
example : conwayXyToIndex 5 (-5) = 416 := by decide
example : indexToXy 0 = (0, 7) ∧ indexToXy 127 = (1, 7) ∧ indexToXy 979 = (13, 0) := by decide

/-! ## The mapping is a bijection between valid addresses and [0, 980) -/

lemma xyToIndex_left_inv : ∀ s : Fin 14, ∀ p : Fin 71, validAddr (s : ℕ) (p : ℕ) →
    indexToXy (xyToIndex (s : ℕ) (p : ℕ)) = (((s : ℕ) : Int), ((p : ℕ) : Int)) := by decide

lemma xyToIndex_mem_range : ∀ s : Fin 14, ∀ p : Fin 71, validAddr (s : ℕ) (p : ℕ) →
    0 ≤ xyToIndex (s : ℕ) (p : ℕ) ∧ xyToIndex (s : ℕ) (p : ℕ) < NUM_LEDS := by decide

set_option maxRecDepth 4000 in
lemma xyToIndex_right_inv : ∀ i : Fin 980,
    validAddr (indexToXy ((i : ℕ) : Int)).1 (indexToXy ((i : ℕ) : Int)).2 ∧
    xyToIndex (indexToXy ((i : ℕ) : Int)).1 (indexToXy ((i : ℕ) : Int)).2 = ((i : ℕ) : Int) := by
  decide

/-- Bounds of a valid address, with the layout constants unfolded. -/
lemma validAddr_bounds {step pos : Int} (h : validAddr step pos) :
    0 ≤ step ∧ step < 14 ∧ 0 ≤ pos ∧ pos < 71 := by
  obtain ⟨h1, h2, h3, h4, -⟩ := h
  refine ⟨h1, ?_, h3, ?_⟩
  · simpa [STEP_COUNT] using h2
  · simpa [MAX_LEDS_PER_STEP] using h4

/-- Rephrase a valid Int address through Fin coercions so the decided
lemmas apply. -/
lemma validAddr_toFin {step pos : Int} (h : validAddr step pos) :
    ∃ s : Fin 14, ∃ p : Fin 71, ((s : ℕ) : Int) = step ∧ ((p : ℕ) : Int) = pos := by
  obtain ⟨h1, h2, h3, h4⟩ := validAddr_bounds h
  refine ⟨⟨step.toNat, by omega⟩, ⟨pos.toNat, by omega⟩, ?_, ?_⟩ <;>
    simp [Int.toNat_of_nonneg, h1, h3]

/-- C1: on the configured 14-step topology, xyToIndex restricted to valid
non-virtual logical addresses (0 ≤ step < 14, 0 ≤ pos < 71, and not
(step < 2 and pos < 7)) is injective, always lands in [0, 980), and hits
every slot of [0, 980). -/
theorem C1_xyToIndex_bijective :
    (∀ s p s' p' : Int, validAddr s p → validAddr s' p' →
      xyToIndex s p = xyToIndex s' p' → s = s' ∧ p = p') ∧
    (∀ s p : Int, validAddr s p → 0 ≤ xyToIndex s p ∧ xyToIndex s p < NUM_LEDS) ∧
    (∀ i : Int, 0 ≤ i → i < NUM_LEDS → ∃ s p, validAddr s p ∧ xyToIndex s p = i) := by
  refine ⟨?_, ?_, ?_⟩
  · intro s p s' p' hv hv' heq
    obtain ⟨fs, fp, hfs, hfp⟩ := validAddr_toFin hv
    obtain ⟨fs', fp', hfs', hfp'⟩ := validAddr_toFin hv'
    have h1 := xyToIndex_left_inv fs fp (by rw [hfs, hfp]; exact hv)
    have h2 := xyToIndex_left_inv fs' fp' (by rw [hfs', hfp']; exact hv')
    rw [hfs, hfp] at h1
    rw [hfs', hfp'] at h2
    rw [heq, h2] at h1
    exact ⟨(Prod.mk.injEq _ _ _ _ ▸ h1).1.symm, (Prod.mk.injEq _ _ _ _ ▸ h1).2.symm⟩
  · intro s p hv
    obtain ⟨fs, fp, hfs, hfp⟩ := validAddr_toFin hv
    have := xyToIndex_mem_range fs fp (by rw [hfs, hfp]; exact hv)
    rwa [hfs, hfp] at this
  · intro i h0 hlt
    have hlt' : i < 980 := by simpa [NUM_LEDS] using hlt
    have hi : ((i.toNat : ℕ) : Int) = i := Int.toNat_of_nonneg h0
    have := xyToIndex_right_inv ⟨i.toNat, by omega⟩
    rw [Fin.val_mk, hi] at this
    exact ⟨(indexToXy i).1, (indexToXy i).2, this.1, this.2⟩

/-- Closed instance of C1: injectivity applied at two concrete valid
addresses, and surjectivity applied at slot 500. -/
theorem C1_xyToIndex_bijective_witness :
    ((3 : Int) = 3 ∧ (10 : Int) = 10) ∧ (∃ s p, validAddr s p ∧ xyToIndex s p = 500) :=
  ⟨C1_xyToIndex_bijective.1 3 10 3 10 (by decide) (by decide) rfl,
   C1_xyToIndex_bijective.2.2 500 (by decide) (by decide)⟩

/-! ## Out-of-range and virtual-prefix addresses -/

/-- Amended C2: for the bounds-checked xyToIndex shared by main.ino,
mvp.ino and example.ino, every input with step or pos out of range or
inside the virtual prefix of rows 0-1 returns the sentinel NUM_LEDS = 980
and never a value below NUM_LEDS. (conway.ino has a reduced variant
without the range check, settled separately by the counterexample.) -/
theorem C2_checked_xyToIndex_sentinel (step pos : Int)
    (h : step < 0 ∨ STEP_COUNT ≤ step ∨ pos < 0 ∨ MAX_LEDS_PER_STEP ≤ pos ∨
      (step < 2 ∧ pos < 7)) :
    xyToIndex step pos = NUM_LEDS ∧ ¬ xyToIndex step pos < NUM_LEDS := by
  have hmain : xyToIndex step pos = NUM_LEDS := by
    unfold xyToIndex
    by_cases h1 : step < 0 ∨ STEP_COUNT ≤ step ∨ pos < 0 ∨ MAX_LEDS_PER_STEP ≤ pos
    · simp [h1]
    · have h2 : step < 2 ∧ pos < 7 := by tauto
      simp [h1, h2]
  exact ⟨hmain, by rw [hmain]; exact lt_irrefl _⟩

/-- Closed instance of the amended C2 at the out-of-range input (-1, 0). -/
theorem C2_checked_xyToIndex_sentinel_witness :
    xyToIndex (-1) 0 = NUM_LEDS ∧ ¬ xyToIndex (-1) 0 < NUM_LEDS :=
  C2_checked_xyToIndex_sentinel (-1) 0 (Or.inl (by decide))

/-- Refutation of C2 as stated: conway.ino's xyToIndex (lines 31-38) checks
only the virtual prefix, so the out-of-range input (step 5, pos -5) does
not return the sentinel; it returns 416, a value inside [0, NUM_LEDS). -/
theorem C2_conway_counterexample :
    conwayXyToIndex 5 (-5) = 416 ∧ conwayXyToIndex 5 (-5) ≠ NUM_LEDS ∧
    0 ≤ conwayXyToIndex 5 (-5) ∧ conwayXyToIndex 5 (-5) < NUM_LEDS := by decide

/-! ## Frame compositing (displayLeds, unnamed/part_002 lines 226-247) -/

/-- RGB triple; channels are uint8 values in [0, 255], modelled as Nat. -/
structure CRGB where
  r : ℕ
  g : ℕ
  b : ℕ
  deriving DecidableEq

/-- Embedding of the C idiom `sum > 255 ? 255 : sum` used per channel. -/
def clamp255 (sum : ℕ) : ℕ := if sum > 255 then 255 else sum

/-- One iteration of the animation loop in displayLeds: add one stacked
contribution onto the accumulated led value, clamping each channel. -/
def displayLedStep (acc contrib : CRGB) : CRGB :=
  ⟨clamp255 (acc.r + contrib.r), clamp255 (acc.g + contrib.g), clamp255 (acc.b + contrib.b)⟩

/-- Final value of one physical slot: starts at black CRGB(0,0,0), then folds
the stacked contributions in stack order, exactly as the animation loop of
displayLeds does. -/
def displayLed (contribs : List CRGB) : CRGB :=
  contribs.foldl displayLedStep ⟨0, 0, 0⟩

set_option linter.unusedVariables false in
/-- Embedding of displayLeds for one slot: the slot at index
step * LEDS_PER_STEP + led_on_step receives the fold of the per-animation
step colors animation_stack_steps[a][step]; the stack is the list of live
per-step color rows. The led_on_step argument mirrors the inner loop but the
contribution list depends only on step. -/
def displayLeds (stack : List (ℕ → CRGB)) (step : ℕ) (led_on_step : ℕ) : CRGB :=
  displayLed (stack.map (fun steps => steps step))

lemma foldl_clamp (l : List ℕ) (a : ℕ) (ha : a ≤ 255) :
    l.foldl (fun x y => clamp255 (x + y)) a = min (a + l.sum) 255 := by
  induction l generalizing a with
  | nil => simp; omega
  | cons x xs ih =>
    simp only [List.foldl_cons, List.sum_cons]
    by_cases h : a + x ≤ 255
    · have hx : clamp255 (a + x) = a + x := by unfold clamp255; split <;> omega
      rw [hx, ih (a + x) h]; omega
    · have hx : clamp255 (a + x) = 255 := by unfold clamp255; split <;> omega
      rw [hx, ih 255 le_rfl]; omega

lemma displayLed_foldl (contribs : List CRGB) (acc : CRGB) :
    contribs.foldl displayLedStep acc =
      ⟨(contribs.map CRGB.r).foldl (fun x y => clamp255 (x + y)) acc.r,
       (contribs.map CRGB.g).foldl (fun x y => clamp255 (x + y)) acc.g,
       (contribs.map CRGB.b).foldl (fun x y => clamp255 (x + y)) acc.b⟩ := by
  induction contribs generalizing acc with
  | nil => rfl
  | cons c cs ih => simp only [List.foldl_cons, List.map_cons, ih, displayLedStep]

/-- C3: each physical slot starts at black and accumulates every stacked
contribution by per-channel saturating addition, so the result channel is
min(sum of contributions, 255); in particular two contributions of
(200,0,0) composite to (255,0,0), never 400 mod 256 = 144 and never the
bare last-writer value 200. -/
theorem C3_displayLeds_saturating :
    (∀ stack : List (ℕ → CRGB), ∀ step led_on_step : ℕ,
      displayLeds stack step led_on_step =
        ⟨min ((stack.map (fun steps => (steps step).r)).sum) 255,
         min ((stack.map (fun steps => (steps step).g)).sum) 255,
         min ((stack.map (fun steps => (steps step).b)).sum) 255⟩) ∧
    displayLed [⟨200, 0, 0⟩, ⟨200, 0, 0⟩] = ⟨255, 0, 0⟩ ∧
    displayLed [⟨200, 0, 0⟩, ⟨200, 0, 0⟩] ≠ ⟨144, 0, 0⟩ ∧
    displayLed [⟨200, 0, 0⟩, ⟨200, 0, 0⟩] ≠ ⟨200, 0, 0⟩ := by
  refine ⟨?_, by decide, by decide, by decide⟩
  intro stack step _
  unfold displayLeds displayLed
  rw [displayLed_foldl]
  simp only [List.map_map]
  rw [foldl_clamp _ 0 (by omega), foldl_clamp _ 0 (by omega), foldl_clamp _ 0 (by omega)]
  simp only [zero_add]
  rfl

/-! ## Raindrop renderer (matrix.ino, drawRaindrop)

matrix.ino carries the same xyToIndex and setLedSafe as main.ino (lines
84-114 there); the embeddings above serve it too.  FastLED `+=` on CRGB is
per-channel saturating qadd8. -/

/-- Embedding of the guarded writer setLedSafe (main.ino lines 93-97,
identical in matrix.ino lines 108-114): writes the color only when
index < NUM_LEDS, otherwise leaves the buffer untouched. -/
def setLedSafe (leds : Int → CRGB) (index : Int) (color : CRGB) : Int → CRGB :=
  if index < NUM_LEDS then fun j => if j = index then color else leds j else leds

/-- FastLED CRGB operator += : per-channel saturating addition. -/
def crgbAddSat (a c : CRGB) : CRGB :=
  ⟨clamp255 (a.r + c.r), clamp255 (a.g + c.g), clamp255 (a.b + c.b)⟩

def TAIL_LENGTH : ℕ := 7

def COLOR_HEAD : CRGB := ⟨200, 255, 200⟩

def COLOR_BRIGHT : CRGB := ⟨0, 255, 0⟩

def COLOR_MEDIUM : CRGB := ⟨0, 200, 0⟩

def COLOR_DIM : CRGB := ⟨0, 120, 0⟩

/-- One iteration of the tail loop of drawRaindrop (matrix.ino lines
157-189), for tail offset i: if tailStep = headStep - i is a real step,
saturating-add the scaled tail color at the mapped index, guarded by
index < NUM_LEDS.  The source locals tailStep, brightness and tailColor are
inlined; the channel scaling nscale8 is passed as a parameter since its
rounding depends on the FastLED library version (the theorems below do not
depend on it). -/
def drawRaindropTail (nscale8 : CRGB → ℕ → CRGB) (headStep column : Int) (i : ℕ)
    (leds : Int → CRGB) : Int → CRGB :=
  if 0 ≤ headStep - (i : Int) ∧ headStep - (i : Int) < STEP_COUNT then
    if xyToIndex (headStep - (i : Int)) column < NUM_LEDS then
      fun j => if j = xyToIndex (headStep - (i : Int)) column then
        crgbAddSat (leds j)
          (nscale8 (if i = 1 then COLOR_BRIGHT else if i ≤ 3 then COLOR_MEDIUM else COLOR_DIM)
            (255 - i * 255 / (TAIL_LENGTH + 1)))
      else leds j
    else leds
  else leds

/-- Embedding of drawRaindrop (matrix.ino lines 140-190) as a buffer
transformer: inactive drops draw nothing; the head, when on a real step, is
written by plain assignment through setLedSafe (NOT saturating addition);
then the tail loop runs for i = 1..TAIL_LENGTH.  headStep is the already
truncated (int)drop->step of the source; the float position update lives in
updateRaindrop, outside this claim. -/
def drawRaindrop (nscale8 : CRGB → ℕ → CRGB) (active : Bool) (headStep column : Int)
    (leds : Int → CRGB) : Int → CRGB :=
  if !active then leds
  else
    let leds1 := if 0 ≤ headStep ∧ headStep < STEP_COUNT
      then setLedSafe leds (xyToIndex headStep column) COLOR_HEAD else leds
    (List.range TAIL_LENGTH).foldl
      (fun buf k => drawRaindropTail nscale8 headStep column (k + 1) buf) leds1

/-- The all-black buffer the frame starts from. -/
def blackBuffer : Int → CRGB := fun _ => ⟨0, 0, 0⟩

lemma drawRaindropTail_ne (nscale8 : CRGB → ℕ → CRGB) (headStep column : Int) (i : ℕ)
    (leds : Int → CRGB) (j : Int) (hj : xyToIndex (headStep - (i : Int)) column ≠ j) :
    drawRaindropTail nscale8 headStep column i leds j = leds j := by
  unfold drawRaindropTail
  split
  · split
    · exact if_neg (fun h => hj h.symm)
    · rfl
  · rfl

lemma foldl_tail_preserve (nscale8 : CRGB → ℕ → CRGB) (headStep column : Int) (j : Int)
    (ks : List ℕ) (h : ∀ k ∈ ks, xyToIndex (headStep - ((k + 1 : ℕ) : Int)) column ≠ j) :
    ∀ leds : Int → CRGB,
      (ks.foldl (fun buf k => drawRaindropTail nscale8 headStep column (k + 1) buf) leds) j =
        leds j := by
  induction ks with
  | nil => intro leds; rfl
  | cons k ks ih =>
    intro leds
    simp only [List.foldl_cons]
    rw [ih (fun u hu => h u (List.mem_cons_of_mem _ hu))]
    exact drawRaindropTail_ne _ _ _ _ _ _ (h k (List.mem_cons_self _ _))

/-- Drawing a drop with its head at (step 5, column 10) leaves the head
slot 401 holding exactly COLOR_HEAD, whatever the buffer held before: the
head write is an overwrite, and none of the tail writes of the same drop
touches slot 401. -/
lemma drawRaindrop_head_slot (nscale8 : CRGB → ℕ → CRGB) (leds : Int → CRGB) :
    drawRaindrop nscale8 true 5 10 leds 401 = COLOR_HEAD := by
  have hdr : drawRaindrop nscale8 true 5 10 leds =
      (List.range TAIL_LENGTH).foldl
        (fun buf k => drawRaindropTail nscale8 5 10 (k + 1) buf)
        (setLedSafe leds (xyToIndex 5 10) COLOR_HEAD) := rfl
  rw [hdr, foldl_tail_preserve nscale8 5 10 401 (List.range TAIL_LENGTH) (by decide)]
  have hx : xyToIndex 5 10 = (401 : Int) := by decide
  rw [hx]
  unfold setLedSafe
  norm_num [NUM_LEDS]

/-- FastLED scale8 with the library default fixed scaling
(FASTLED_SCALE8_FIXED): scale8(i, s) = i * (s + 1) >> 8.  Only the tail
colors of drawRaindrop pass through it; drawRaindrop_head_slot above shows
the contested head slot is the same for EVERY scaling function, so nothing
below depends on this choice. -/
def scale8 (i s : ℕ) : ℕ := i * (s + 1) / 256

/-- FastLED CRGB.nscale8: scale8 applied to each channel. -/
def nscale8 (c : CRGB) (s : ℕ) : CRGB := ⟨scale8 c.r s, scale8 c.g s, scale8 c.b s⟩

/-- C3 refuted on matrix.ino (a cited source of the claim): drawRaindrop
writes its head sample by plain assignment, not saturating addition, so
when two drops' heads land on the same slot the slot ends at the last
writer's value: two heads each contributing r = 200 (COLOR_HEAD) onto a
black frame leave r = 200, not min(200 + 200, 255) = 255. -/
theorem C3_drawRaindrop_head_overwrites :
    xyToIndex 5 10 = 401 ∧
    COLOR_HEAD.r = 200 ∧
    (drawRaindrop nscale8 true 5 10 (drawRaindrop nscale8 true 5 10 blackBuffer)) 401 =
      COLOR_HEAD ∧
    ((drawRaindrop nscale8 true 5 10 (drawRaindrop nscale8 true 5 10 blackBuffer)) 401).r ≠
      min (200 + 200) 255 := by
  have h := drawRaindrop_head_slot nscale8 (drawRaindrop nscale8 true 5 10 blackBuffer)
  refine ⟨by decide, rfl, h, ?_⟩
  rw [h]
  decide

/-! ## Hold-then-fade brightness curve (mvp.ino, calculateStepBrightness) -/

def STEP_ON_INTERVAL_MS : ℕ := 650

def STEP_HOLD_MS : ℕ := 1500

def STEP_FADE_MS : ℕ := 1000

/-- Embedding of calculateStepBrightness from mvp.ino lines 125-150, as a
function of the step's active flag and the elapsed time
currentMs - turnOnTime (the source reads both from stepStates). -/
def calculateStepBrightness (isActive : Bool) (elapsed : ℕ) : ℕ :=
  if !isActive then 0
  else if elapsed < STEP_HOLD_MS then 255
  else if elapsed - STEP_HOLD_MS < STEP_FADE_MS then
    255 - (elapsed - STEP_HOLD_MS) * 255 / STEP_FADE_MS
  else 0

/-- C4 evaluated on the code: the constants are 1500 ms hold and 1000 ms
fade (the spec and the source comments say 2000 and 3000), so at elapsed
3500 ms the step is already fully off with brightness 0 instead of the
claimed 50 percent; 1000 ms and 5001 ms agree with the claim. -/
theorem C4_code_at_failing_input :
    STEP_HOLD_MS = 1500 ∧ STEP_FADE_MS = 1000 ∧
    calculateStepBrightness true 1000 = 255 ∧
    calculateStepBrightness true 3500 = 0 ∧
    calculateStepBrightness true 5001 = 0 := by decide

/-! ## Animation stack scheduler (unnamed/part_002)

The final sketch keeps three parallel global arrays indexed by stack slot
(start times, starting points, per-step color rows) plus a size counter.
Arrays are modelled as total functions from the slot index; the C globals
are zero initialised. -/

def ANIMATION_STACK_SIZE_MAX : ℕ := 10

def NUM_STEPS : ℕ := 14

def ANIMATION_RUNTIME : ℕ := 20000 + NUM_STEPS * 1000

def TOP : Bool := false

def BOTTOM : Bool := true

structure AnimStack where
  start_times : ℕ → ℕ
  starting_point : ℕ → Bool
  steps : ℕ → ℕ → CRGB
  size : ℕ

/-- Embedding of pushStack (part_002 lines 190-204): write the current time
and the starting point at index animation_stack_size, then increment the
size.  The color row at that slot is left as is, exactly as in the source. -/
def pushStack (st : AnimStack) (now : ℕ) (sp : Bool) : AnimStack :=
  { st with
    start_times := fun i => if i = st.size then now else st.start_times i,
    starting_point := fun i => if i = st.size then sp else st.starting_point i,
    size := st.size + 1 }

/-- Embedding of popStack (part_002 lines 207-223).  The loop shifts
start_times and starting_point down by one slot; the line that was meant to
shift the color rows, `*animation_stack_steps[i] = &animation_stack_steps[i + 1]`,
instead assigns only element 0 of row i, with a value obtained from the
address of the next row.  That unknown value is the `junk` parameter; the
rest of each row is left untouched, as in the source. -/
def popStack (junk : ℕ → CRGB) (st : AnimStack) : AnimStack :=
  { start_times := fun i => if i < st.size - 1 then st.start_times (i + 1) else st.start_times i,
    starting_point := fun i => if i < st.size - 1 then st.starting_point (i + 1) else st.starting_point i,
    steps := fun i s => if i < st.size - 1 ∧ s = 0 then junk i else st.steps i s,
    size := st.size - 1 }

/-- Embedding of sensorLoop (part_002 lines 99-117), with the two trigger
conditions (distance within range and rate limit elapsed) abstracted as
booleans: under ONE size check, each trigger that fires pushes once. -/
def sensorLoop (trig_top trig_bottom : Bool) (st : AnimStack) (now : ℕ) : AnimStack :=
  if st.size < ANIMATION_STACK_SIZE_MAX then
    let st1 := if trig_top then pushStack st now TOP else st
    let st2 := if trig_bottom then pushStack st1 now BOTTOM else st1
    st2
  else st

/-- Embedding of the expiry while loop at the head of animationLoop
(part_002 lines 151-162): pop while the stack is nonempty and the front
entry has outlived ANIMATION_RUNTIME.  millis() is modelled as the fixed
now of this pass; fuel bounds the iterations and st.size suffices since
each pop shrinks the stack. -/
def expiryLoop (junk : ℕ → ℕ → CRGB) (now : ℕ) : ℕ → AnimStack → AnimStack
  | 0, st => st
  | fuel + 1, st =>
    if 0 < st.size ∧ now - st.start_times 0 > ANIMATION_RUNTIME then
      expiryLoop (fun k => junk (k + 1)) now fuel (popStack (junk 0) st)
    else st

def animationLoopExpiry (junk : ℕ → ℕ → CRGB) (now : ℕ) (st : AnimStack) : AnimStack :=
  expiryLoop junk now st.size st

/-- The list of live start times, front of the stack first; the view under
which the scheduler invariants are stated. -/
def liveTimes (st : AnimStack) : List ℕ :=
  (List.range st.size).map st.start_times

/-- Reference list version of the expiry loop: drop leading expired times. -/
def dropExpired (now : ℕ) : List ℕ → List ℕ
  | [] => []
  | t :: rest => if now - t > ANIMATION_RUNTIME then dropExpired now rest else t :: rest

lemma liveTimes_pushStack (st : AnimStack) (now : ℕ) (sp : Bool) :
    liveTimes (pushStack st now sp) = liveTimes st ++ [now] := by
  unfold liveTimes pushStack
  simp only [List.range_succ, List.map_append, List.map_cons, List.map_nil]
  congr 1
  apply List.map_congr_left
  intro i hi
  rw [List.mem_range] at hi
  simp [Nat.ne_of_lt hi]

lemma liveTimes_popStack (junk : ℕ → CRGB) (st : AnimStack) :
    liveTimes (popStack junk st) = (liveTimes st).tail := by
  unfold liveTimes popStack
  cases hsz : st.size with
  | zero => simp
  | succ n =>
    simp only [Nat.succ_sub_one, List.range_succ_eq_map, List.map_cons, List.tail_cons,
      List.map_map]
    apply List.map_congr_left
    intro i hi
    rw [List.mem_range] at hi
    simp [hi, Function.comp, Nat.succ_eq_add_one]

lemma liveTimes_eq_cons (st : AnimStack) (h : 0 < st.size) :
    liveTimes st = st.start_times 0 :: (liveTimes st).tail := by
  unfold liveTimes
  obtain ⟨n, hn⟩ : ∃ n, st.size = n + 1 := ⟨st.size - 1, by omega⟩
  rw [hn, List.range_succ_eq_map]
  simp

lemma dropExpired_cons (now t : ℕ) (rest : List ℕ) :
    dropExpired now (t :: rest) =
      if now - t > ANIMATION_RUNTIME then dropExpired now rest else t :: rest := rfl

lemma dropExpired_suffix (now : ℕ) (l : List ℕ) : dropExpired now l <:+ l := by
  induction l with
  | nil => exact List.suffix_rfl
  | cons t rest ih =>
    unfold dropExpired
    split
    · exact ih.trans (List.suffix_cons t rest)
    · exact List.suffix_rfl

lemma dropExpired_not_expired (now : ℕ) (l : List ℕ) (hs : l.Sorted (· ≤ ·)) :
    ∀ t ∈ dropExpired now l, now - t ≤ ANIMATION_RUNTIME := by
  induction l with
  | nil => intro t ht; simp [dropExpired] at ht
  | cons t rest ih =>
    obtain ⟨hrel, htail⟩ := List.pairwise_cons.1 hs
    unfold dropExpired
    split
    · exact ih htail
    · intro u hu
      rcases List.mem_cons.1 hu with rfl | hu
      · omega
      · exact le_trans (Nat.sub_le_sub_left (hrel u hu) now) (by omega)

lemma expiryLoop_liveTimes (now : ℕ) :
    ∀ fuel : ℕ, ∀ junk : ℕ → ℕ → CRGB, ∀ st : AnimStack, st.size ≤ fuel →
      liveTimes (expiryLoop junk now fuel st) = dropExpired now (liveTimes st) := by
  intro fuel
  induction fuel with
  | zero =>
    intro junk st hsz
    have h0 : st.size = 0 := by omega
    unfold expiryLoop liveTimes
    rw [h0]
    rfl
  | succ fuel ih =>
    intro junk st hsz
    unfold expiryLoop
    split
    · next hcond =>
      rw [ih _ _ (by simp [popStack]; omega), liveTimes_popStack]
      conv_rhs => rw [liveTimes_eq_cons st hcond.1]
      rw [dropExpired_cons, if_pos hcond.2]
    · next hcond =>
      rcases Nat.eq_zero_or_pos st.size with h0 | hpos
      · unfold liveTimes
        rw [h0]
        rfl
      · have hne : ¬ now - st.start_times 0 > ANIMATION_RUNTIME := by tauto
        conv_rhs => rw [liveTimes_eq_cons st hpos]
        rw [dropExpired_cons, if_neg hne]
        exact (liveTimes_eq_cons st hpos)

/-! ## Reachable scheduler states -/

/-- One observable transition of the frame loop: time advances, sensorLoop
runs with some pair of trigger outcomes, or the expiry pass at the head of
animationLoop runs. -/
inductive SchedStep : AnimStack × ℕ → AnimStack × ℕ → Prop
  | tick (st : AnimStack) (now d : ℕ) : SchedStep (st, now) (st, now + d)
  | sensor (st : AnimStack) (now : ℕ) (trig_top trig_bottom : Bool) :
      SchedStep (st, now) (sensorLoop trig_top trig_bottom st now, now)
  | expire (st : AnimStack) (now : ℕ) (junk : ℕ → ℕ → CRGB) :
      SchedStep (st, now) (animationLoopExpiry junk now st, now)

/-- The zero-initialised C globals at startup. -/
def initStack : AnimStack := ⟨fun _ => 0, fun _ => false, fun _ _ => ⟨0, 0, 0⟩, 0⟩

def Reachable (p : AnimStack × ℕ) : Prop :=
  Relation.ReflTransGen SchedStep (initStack, 0) p

/-- Scheduler invariant: live start times are nondecreasing front to back
and never in the future. -/
def SchedInv (p : AnimStack × ℕ) : Prop :=
  (liveTimes p.1).Sorted (· ≤ ·) ∧ ∀ t ∈ liveTimes p.1, t ≤ p.2

lemma schedInv_init : SchedInv (initStack, 0) := by
  constructor <;> simp [liveTimes, initStack]

lemma schedInv_push {st : AnimStack} {now : ℕ} (h : SchedInv (st, now)) (sp : Bool) :
    SchedInv (pushStack st now sp, now) := by
  obtain ⟨hs, hle⟩ := h
  constructor
  · rw [liveTimes_pushStack]
    exact List.pairwise_append.2 ⟨hs, List.sorted_singleton now, fun a ha b hb => by
      rw [List.mem_singleton] at hb
      exact hb ▸ hle a ha⟩
  · intro t ht
    rw [liveTimes_pushStack, List.mem_append, List.mem_singleton] at ht
    rcases ht with ht | rfl
    · exact hle t ht
    · exact le_rfl

lemma schedInv_step {p q : AnimStack × ℕ} (h : SchedStep p q) (hp : SchedInv p) :
    SchedInv q := by
  cases h with
  | tick st now d =>
    exact ⟨hp.1, fun t ht => le_trans (hp.2 t ht) (Nat.le_add_right now d)⟩
  | sensor st now trig_top trig_bottom =>
    unfold sensorLoop
    split
    · cases trig_top <;> cases trig_bottom
      · exact hp
      · exact schedInv_push hp BOTTOM
      · exact schedInv_push hp TOP
      · exact schedInv_push (schedInv_push hp TOP) BOTTOM
    · exact hp
  | expire st now junk =>
    have heq : liveTimes (animationLoopExpiry junk now st) = dropExpired now (liveTimes st) :=
      expiryLoop_liveTimes now st.size junk st le_rfl
    have hsuf := dropExpired_suffix now (liveTimes st)
    constructor
    · rw [heq]
      exact hp.1.sublist hsuf.sublist
    · intro t ht
      rw [heq] at ht
      exact hp.2 t (hsuf.sublist.mem ht)

lemma reachable_schedInv {p : AnimStack × ℕ} (h : Reachable p) : SchedInv p := by
  induction h with
  | refl => exact schedInv_init
  | tail hsteps hstep ih => exact schedInv_step hstep ih

lemma sorted_headD_le (l : List ℕ) (hs : l.Sorted (· ≤ ·)) : ∀ t ∈ l, l.headD t ≤ t := by
  cases l with
  | nil => simp
  | cons h rest =>
    intro t ht
    rcases List.mem_cons.1 ht with rfl | ht
    · simp
    · simpa using (List.pairwise_cons.1 hs).1 t ht

/-- The stack after n single-trigger admissions at time 0. -/
def pushN : ℕ → AnimStack
  | 0 => initStack
  | n + 1 => pushStack (pushN n) 0 TOP

lemma pushN_size (n : ℕ) : (pushN n).size = n := by
  induction n with
  | zero => rfl
  | succ n ih => simp [pushN, pushStack, ih]

lemma sensorLoop_single (st : AnimStack) (now : ℕ) (h : st.size < ANIMATION_STACK_SIZE_MAX) :
    sensorLoop true false st now = pushStack st now TOP := by
  unfold sensorLoop
  rw [if_pos h]
  rfl

lemma reach_pushN : ∀ n : ℕ, n ≤ 9 → Reachable (pushN n, 0) := by
  intro n
  induction n with
  | zero => intro _; exact Relation.ReflTransGen.refl
  | succ n ih =>
    intro hn
    have hsz : (pushN n).size < ANIMATION_STACK_SIZE_MAX := by
      rw [pushN_size]; unfold ANIMATION_STACK_SIZE_MAX; omega
    have hstep : SchedStep (pushN n, 0) (pushN (n + 1), 0) := by
      have := SchedStep.sensor (pushN n) 0 true false
      rwa [sensorLoop_single (pushN n) 0 hsz] at this
    exact Relation.ReflTransGen.tail (ih (by omega)) hstep

/-- C5 refuted on the code: the size bound is checked once per sensorLoop
pass but each of the two sensors can push; from the reachable size-9 state
a pass in which both sensors trigger leaves size 11, exceeding
ANIMATION_STACK_SIZE_MAX = 10 (and the second push writes slot index 10,
past the end of the C arrays).  A pass that starts with a full stack does
leave it untouched. -/
theorem C5_double_trigger_overflow :
    Reachable (pushN 9, 0) ∧
    (pushN 9).size = ANIMATION_STACK_SIZE_MAX - 1 ∧
    (sensorLoop true true (pushN 9) 0).size = ANIMATION_STACK_SIZE_MAX + 1 ∧
    ¬ (sensorLoop true true (pushN 9) 0).size ≤ ANIMATION_STACK_SIZE_MAX ∧
    sensorLoop true true (pushN 10) 0 = pushN 10 :=
  ⟨reach_pushN 9 le_rfl, rfl, rfl, by decide, rfl⟩

/-- Concrete two-instance stack: the front (oldest) instance carries step
colors (10,10,10), the survivor carries (99,99,99). -/
def twoStack : AnimStack :=
  { start_times := fun i => if i = 0 then 100 else if i = 1 then 200 else 0,
    starting_point := fun _ => TOP,
    steps := fun i _ => if i = 0 then ⟨10, 10, 10⟩ else if i = 1 then ⟨99, 99, 99⟩ else ⟨0, 0, 0⟩,
    size := 2 }

/-- C6 refuted on the code: popStack shifts the survivor's start time (and
starting point) to slot 0, but its per-step colors are NOT shifted --
whatever value the bogus row-copy line writes into element 0 of the slot-0
row, the surviving instance's color row after the pop still holds the
POPPED instance's colors, here (10,10,10) on step 1 rather than its own
(99,99,99). -/
theorem C6_popStack_corrupts_survivor_colors :
    ∀ junk : ℕ → CRGB,
      (popStack junk twoStack).size = 1 ∧
      (popStack junk twoStack).start_times 0 = twoStack.start_times 1 ∧
      (popStack junk twoStack).starting_point 0 = twoStack.starting_point 1 ∧
      (popStack junk twoStack).steps 0 1 = ⟨10, 10, 10⟩ ∧
      twoStack.steps 1 1 = ⟨99, 99, 99⟩ ∧
      (popStack junk twoStack).steps 0 1 ≠ twoStack.steps 1 1 := by
  intro junk
  refine ⟨rfl, rfl, rfl, rfl, rfl, ?_⟩
  show (⟨10, 10, 10⟩ : CRGB) ≠ (⟨99, 99, 99⟩ : CRGB)
  decide

/-- C7: in every reachable scheduler state, the expiry pass at the head of
animationLoop leaves the live list equal to the drop-expired-prefix of the
previous live list, and afterwards no live instance has exceeded
ANIMATION_RUNTIME, so the per-frame render loop (which iterates exactly the
post-pass stack) never evaluates an expired instance. -/
theorem C7_expired_removed_before_next_frame :
    ∀ st : AnimStack, ∀ now : ℕ, Reachable (st, now) → ∀ junk : ℕ → ℕ → CRGB,
      liveTimes (animationLoopExpiry junk now st) = dropExpired now (liveTimes st) ∧
      ∀ t ∈ liveTimes (animationLoopExpiry junk now st), ¬ (now - t > ANIMATION_RUNTIME) := by
  intro st now hreach junk
  have hinv := reachable_schedInv hreach
  have heq : liveTimes (animationLoopExpiry junk now st) = dropExpired now (liveTimes st) :=
    expiryLoop_liveTimes now st.size junk st le_rfl
  refine ⟨heq, ?_⟩
  intro t ht
  rw [heq] at ht
  have := dropExpired_not_expired now (liveTimes st) hinv.1 t ht
  omega

/-- Closed instance of C7 at the reachable one-instance state. -/
theorem C7_expired_removed_witness :
    liveTimes (animationLoopExpiry (fun _ _ => ⟨0, 0, 0⟩) 0 (pushN 1)) =
      dropExpired 0 (liveTimes (pushN 1)) :=
  (C7_expired_removed_before_next_frame (pushN 1) 0 (reach_pushN 1 (by omega))
    (fun _ _ => ⟨0, 0, 0⟩)).1

/-- C10: pushStack appends the current time at the back of the live list
and popStack removes exactly the front and shifts; consequently in every
reachable scheduler state the live start times are nondecreasing from index
0, the front entry is the oldest, and the front-only expiry loop removes
every expired instance. -/
theorem C10_sorted_start_times :
    ((∀ st : AnimStack, ∀ now : ℕ, ∀ sp : Bool,
        liveTimes (pushStack st now sp) = liveTimes st ++ [now]) ∧
     (∀ junk : ℕ → CRGB, ∀ st : AnimStack,
        liveTimes (popStack junk st) = (liveTimes st).tail)) ∧
    ∀ st : AnimStack, ∀ now : ℕ, Reachable (st, now) →
      (liveTimes st).Sorted (· ≤ ·) ∧
      (∀ t ∈ liveTimes st, (liveTimes st).headD t ≤ t) ∧
      (∀ junk : ℕ → ℕ → CRGB, ∀ t ∈ liveTimes (animationLoopExpiry junk now st),
        now - t ≤ ANIMATION_RUNTIME) := by
  refine ⟨⟨liveTimes_pushStack, liveTimes_popStack⟩, ?_⟩
  intro st now hreach
  have hinv := reachable_schedInv hreach
  refine ⟨hinv.1, sorted_headD_le _ hinv.1, ?_⟩
  intro junk t ht
  have heq : liveTimes (animationLoopExpiry junk now st) = dropExpired now (liveTimes st) :=
    expiryLoop_liveTimes now st.size junk st le_rfl
  rw [heq] at ht
  exact dropExpired_not_expired now (liveTimes st) hinv.1 t ht

/-- Closed instance of C10 at the reachable two-instance state. -/
theorem C10_sorted_start_times_witness :
    (liveTimes (pushN 2)).Sorted (· ≤ ·) :=
  (C10_sorted_start_times.2 (pushN 2) 0 (reach_pushN 2 (by omega))).1

/-! ## LED buffer writes of the animation routines -/

/-- The sequence of buffer indices written by sweepLeftToRight
(example.ino lines 113-122): for every pos in [0,71), for every step in
[0,14), the unguarded write target xyToIndex step pos. -/
def sweepLeftToRightWrites : List Int :=
  ((List.range 71).map (fun pos =>
    (List.range 14).map (fun step => xyToIndex (step : ℕ) (pos : ℕ)))).flatten

/-- The sequence of buffer indices written by sweepTopToBottom
(example.ino lines 148-157): for every step, for every pos, the unguarded
write target xyToIndex step pos. -/
def sweepTopToBottomWrites : List Int :=
  ((List.range 14).map (fun step =>
    (List.range 71).map (fun pos => xyToIndex (step : ℕ) (pos : ℕ)))).flatten

/-- C8 refuted on example.ino: the sweep loops write `leds[index]` without
any guard, and the virtual position (0,0) maps to the sentinel 980, so both
sweeps perform a write at index 980 = NUM_LEDS, not strictly below
NUM_LEDS (one past the end of the C buffer).  The guarded writer
setLedSafe used by main.ino would have discarded it. -/
theorem C8_sweep_writes_at_sentinel :
    xyToIndex 0 0 = NUM_LEDS ∧
    (980 : Int) ∈ sweepLeftToRightWrites ∧
    (980 : Int) ∈ sweepTopToBottomWrites ∧
    ¬ ((980 : Int) < NUM_LEDS) ∧
    (∀ leds : Int → CRGB, ∀ color : CRGB, setLedSafe leds 980 color = leds) := by
  refine ⟨by decide, by decide, by decide, by decide, ?_⟩
  intro leds color
  unfold setLedSafe
  rw [if_neg (by decide)]

/-! ## Frame limiter (unnamed/part_002 lines 65-80) -/

def FRAMES_PER_SECOND : ℕ := 60

def FRAME_DURATION_MAX : ℕ := 1000 / FRAMES_PER_SECOND

/-- Embedding of frameLimiter as the delay it requests from FastLED.delay,
as a function of the measured frame_duration = millis() - frame_start_time:
a delay of the remaining budget when under it, otherwise none. -/
def frameLimiterDelay (frame_duration : ℕ) : ℕ :=
  if frame_duration < FRAME_DURATION_MAX then FRAME_DURATION_MAX - frame_duration else 0

/-- C9: after a render+output cycle of d milliseconds the limiter delays
exactly max(FRAME_DURATION_MAX - d, 0); in particular an overrun
(d ≥ FRAME_DURATION_MAX) produces no delay at all. -/
theorem C9_frameLimiter_exact_budget (d : ℕ) :
    (frameLimiterDelay d : ℤ) = max ((FRAME_DURATION_MAX : ℤ) - (d : ℤ)) 0 ∧
    (FRAME_DURATION_MAX ≤ d → frameLimiterDelay d = 0) := by
  have hval : FRAME_DURATION_MAX = 16 := rfl
  unfold frameLimiterDelay
  rw [hval]
  constructor
  · split
    · next h => push_cast; omega
    · next h => push_cast; omega
  · intro h
    rw [if_neg (by omega)]

/-- Closed instance of C9 at an overrunning 20 ms frame. -/
theorem C9_frameLimiter_exact_budget_witness :
    (frameLimiterDelay 20 : ℤ) = max ((FRAME_DURATION_MAX : ℤ) - (20 : ℤ)) 0 ∧
    frameLimiterDelay 20 = 0 :=
  ⟨(C9_frameLimiter_exact_budget 20).1, (C9_frameLimiter_exact_budget 20).2 (by decide)⟩

end Stairs
